import Mathlib

/-!
Verification of the calibration + closed-loop motion-controller core of the
`node_gtatrackclone` repository.  JavaScript numbers are modelled by `ℚ`
(exact arithmetic); the value `NaN`/`±Infinity` that `Number(...)` can produce
on malformed records is modelled by the dedicated constructor `JsNum.nonfin`.
Sensor reads and measured deltas are supplied by oracles `ℕ → ℚ` (one entry
per successive `readCurrent` call), making every controller/tuner definition a
pure, executable function of its oracle.
-/

/-- A JavaScript number: either a finite value or NaN/±Infinity
(the result of `Number(x)` on malformed input). -/
inductive JsNum where
  | fin (q : ℚ)
  | nonfin
deriving DecidableEq, Repr

/-- One record of a calibration file: `{ target, ms, heldKey }`
(`heldKey` may be absent, modelled as `none`). -/
structure CalRecord where
  target : JsNum
  ms : JsNum
  heldKey : Option String
deriving DecidableEq, Repr

/-- A sanitized plan entry of `toMapByStep` (first revision) / `buildPlan`:
`{ step, ms, heldKey }`, with `step` and `ms` known finite. -/
structure PlanEntry where
  step : ℚ
  ms : ℚ
  heldKey : String
deriving DecidableEq, Repr

/-- A plan entry of the second revision's `toMapByStep`: the `ms` field is
copied without validation, so it may be non-finite. -/
structure Entry2 where
  step : ℚ
  ms : JsNum
  heldKey : String
deriving DecidableEq, Repr

/-- Stable insertion of `e` into a list already sorted descending by `key`
(models the stable ES2019 `Array.prototype.sort((a,b) => b.key - a.key)`). -/
def insertByDesc (key : α → ℚ) (e : α) : List α → List α
  | [] => [e]
  | x :: xs => if key e ≤ key x then x :: insertByDesc key e xs else e :: x :: xs

/-- Stable descending sort by `key`. -/
def sortByDesc (key : α → ℚ) (l : List α) : List α :=
  l.foldl (fun acc e => insertByDesc key e acc) []

/-- `toMapByStep` of `helpers/moveTo.js` (first revision): coerce each record to
`{step, ms, heldKey}`, keep only finite positive `step` and `ms`, sort
largest → smallest. -/
def toMapByStep1 (calibration : List CalRecord) : List PlanEntry :=
  let mapped := calibration.filterMap fun c =>
    match c.target, c.ms with
    | JsNum.fin s, JsNum.fin m =>
        if 0 < s ∧ 0 < m then some ⟨s, m, c.heldKey.getD "-"⟩ else none
    | _, _ => none
  sortByDesc (·.step) mapped

/-- `buildPlan` of `helpers/moveToTest.js` (same body as `toMapByStep1`,
duplicated in the source). -/
def buildPlan (calibration : List CalRecord) : List PlanEntry :=
  let mapped := calibration.filterMap fun c =>
    match c.target, c.ms with
    | JsNum.fin s, JsNum.fin m =>
        if 0 < s ∧ 0 < m then some ⟨s, m, c.heldKey.getD "-"⟩ else none
    | _, _ => none
  sortByDesc (·.step) mapped

/-- The collection loop of the second revision's `toMapByStep`: skip records
whose `target` is non-finite or whose `step` was already seen (dedup by step),
copy `ms` unvalidated. -/
def collectByStep : List CalRecord → List ℚ → List Entry2
  | [], _ => []
  | r :: rest, seen =>
    match r.target with
    | JsNum.nonfin => collectByStep rest seen
    | JsNum.fin step =>
        if step ∈ seen then collectByStep rest seen
        else ⟨step, r.ms, r.heldKey.getD "-"⟩ :: collectByStep rest (step :: seen)

/-- `toMapByStep` of the second `moveTo` revision (appended in
`helpers/moveToTest.js`): collect with dedup, then sort largest → smallest. -/
def toMapByStep2 (calibArray : List CalRecord) : List Entry2 :=
  sortByDesc (·.step) (collectByStep calibArray [])

/-! ### Tolerance model -/

/-- `CAL_TOL_PCT` of `calibration.js`. -/
def CAL_TOL_PCT : ℚ := 5 / 10000

/-- `CAL_ABS_TOL` of `calibration.js`. -/
def CAL_ABS_TOL : ℚ := 25 / 1000000

/-- Result record of `effectiveTolerance` in `calibration.js`. -/
structure TolInfo where
  eff : ℚ
  mode : String
  relTol : ℚ
  absTol : ℚ
deriving DecidableEq, Repr

/-- `effectiveTolerance(target)` of `calibration.js`:
`relTol = |target| * CAL_TOL_PCT`, `eff = max(CAL_ABS_TOL, relTol)`. -/
def effectiveTolerance (target : ℚ) : TolInfo :=
  let relTol := |target| * CAL_TOL_PCT
  let eff := max CAL_ABS_TOL relTol
  { eff := eff
    mode := if eff = CAL_ABS_TOL then "ABS" else "REL"
    relTol := relTol
    absTol := CAL_ABS_TOL }

/-- `effectiveFinalTolerance(target, relPct, absTol)` of the second `moveTo`
revision: `max(absTol, |target| * relPct)`. -/
def effectiveFinalTolerance (target relPct absTol : ℚ) : ℚ :=
  let rel := |target| * relPct
  max absTol rel

/-- The tolerance computation inlined in the first `moveTo` revision
(`helpers/moveTo.js` lines 228–232):
`span = max(1, |target| || |current| || 1)`,
`tol = max(absTol, (relPct / 100) * span)`. -/
def moveToTol (target current relPct absTol : ℚ) : ℚ :=
  let t := |target|
  let fallback := if |current| = 0 then 1 else |current|
  let span := max 1 (if t = 0 then fallback else t)
  max absTol (relPct / 100 * span)

/-! ### Rotation normalizer -/

/-- JavaScript truncation toward zero, as used by the `%` operator. -/
def jsTrunc (q : ℚ) : ℤ := if 0 ≤ q then ⌊q⌋ else ⌈q⌉

/-- The JavaScript remainder operator `a % b` (sign follows the dividend). -/
def jsMod (a b : ℚ) : ℚ := a - b * jsTrunc (a / b)

/-- `Math.round`: round half toward positive infinity. -/
def jsRound (q : ℚ) : ℤ := ⌊q + 1 / 2⌋

/-- `to360From180` of `helpers/utils.js`: range-checked shift of a signed
angle into `[0, 360)`; a `RangeError` is modelled as `Except.error`. -/
def to360From180 (signedDeg : ℚ) : Except String ℚ :=
  if signedDeg < -180 ∨ 180 < signedDeg then
    Except.error "Input must be between -180 and 180"
  else if signedDeg < 0 then Except.ok (360 + signedDeg)
  else Except.ok signedDeg

/-- `to360` of `calibration.js` (non-strict wrap):
`t = signedDeg % 360; if (t < 0) t += 360`. -/
def to360cal (signedDeg : ℚ) : ℚ :=
  let t := jsMod signedDeg 360
  if t < 0 then t + 360 else t

/-- `to360` of `cloneJob.js` (src/unnamed/part_005):
`((angle % 360) + 360) % 360`. -/
def to360part5 (angle : ℚ) : ℚ :=
  jsMod (jsMod angle 360 + 360) 360

/-- `forwardDelta360(a, b)` of `calibration.js`:
`d = (b - a) % 360; if (d < 0) d += 360`. -/
def forwardDelta360 (a b : ℚ) : ℚ :=
  let d := jsMod (b - a) 360
  if d < 0 then d + 360 else d

/-- `normSigned` of `cloneJob.js` (src/unnamed/part_005): fold into
`(-180, 180]` via `((a % 360) + 360) % 360`, then subtract 360 if `> 180`.
(The `toFinite` guard is the identity on our finite domain `ℚ`.) -/
def normSigned (a : ℚ) : ℚ :=
  let r := jsMod (jsMod a 360 + 360) 360
  if 180 < r then r - 360 else r

/-! ### StepPlanner: greedy aggregation over a calibration plan -/

/-- One greedy pick: `{ heldKey, step, repeats, msEach }`.
(`conservativeAggregateForHeldKey` omits `heldKey` in its picks; here it is
carried uniformly.) -/
structure Pick where
  heldKey : String
  step : ℚ
  repeats : ℤ
  msEach : ℚ
deriving DecidableEq, Repr

/-- Per-pick hold duration: `Math.max(1, Math.round(msEach * repeats))`. -/
def pickMs (p : Pick) : ℤ := max 1 (jsRound (p.msEach * p.repeats))

/-- A plan segment: adjacent picks sharing a held key, with the summary
fields the source fills in afterwards. -/
structure Segment where
  heldKey : String
  detail : List Pick
  msTotal : ℤ
  repeatsTotal : ℤ
  stepsUsed : List ℚ
deriving DecidableEq, Repr

/-- Group a pick list into maximal runs of equal `heldKey` (summary fields
zeroed).  The source appends left-to-right to the last open segment; this
right recursion produces the same maximal-run partition. -/
def groupPicks : List Pick → List Segment
  | [] => []
  | p :: ps =>
    match groupPicks ps with
    | [] => [⟨p.heldKey, [p], 0, 0, []⟩]
    | s :: ss =>
        if s.heldKey = p.heldKey then ⟨s.heldKey, p :: s.detail, 0, 0, []⟩ :: ss
        else ⟨p.heldKey, [p], 0, 0, []⟩ :: s :: ss

/-- The per-segment summary pass: `msTotal`, `repeatsTotal`, `stepsUsed`. -/
def finalizeSegment (s : Segment) : Segment :=
  { s with
    msTotal := (s.detail.map pickMs).sum
    repeatsTotal := (s.detail.map (·.repeats)).sum
    stepsUsed := s.detail.map (·.step) }

/-- The shared greedy consumption loop: walk the (descending) plan, breaking
once `covered >= cap`, taking `maxRepeats = floor((cap - covered) / step)`
repeats of each entry that fits. -/
def consumePlan (cap : ℚ) : List PlanEntry → ℚ → List Pick → ℚ × List Pick
  | [], covered, picks => (covered, picks)
  | p :: rest, covered, picks =>
      if cap ≤ covered then (covered, picks)
      else
        let maxRepeats : ℤ := ⌊(cap - covered) / p.step⌋
        if maxRepeats ≤ 0 then consumePlan cap rest covered picks
        else consumePlan cap rest (covered + maxRepeats * p.step)
               (picks ++ [⟨p.heldKey, p.step, maxRepeats, p.ms⟩])

/-- Result of `aggregateAllHeldKeys` (the `picks` local is kept alongside the
returned `segments`/`covered` for specification purposes). -/
structure AggResult where
  picks : List Pick
  segments : List Segment
  covered : ℚ
deriving DecidableEq, Repr

/-- `aggregateAllHeldKeys(absRem, plan, tol)` of `helpers/moveTo.js`:
`cap = max(0, absRem - tol)`; consume whole-number steps (`>= 1`) first, then
fractional steps (`< 1`); `null` when `cap <= 0` or nothing was picked. -/
def aggregateAllHeldKeys (absRem : ℚ) (plan : List PlanEntry) (tol : ℚ) :
    Option AggResult :=
  let cap := max 0 (absRem - tol)
  if cap ≤ 0 then none
  else
    let wholePlan := plan.filter (fun p => 1 ≤ p.step)
    let fracPlan := plan.filter (fun p => p.step < 1)
    let r1 := consumePlan cap wholePlan 0 []
    let r2 := consumePlan cap fracPlan r1.1 r1.2
    if r2.2 = [] then none
    else some ⟨r2.2, (groupPicks r2.2).map finalizeSegment, r2.1⟩

/-- Result of `conservativeAggregateForHeldKey`. -/
structure ConsResult where
  picks : List Pick
  msTotal : ℤ
  repeatsTotal : ℤ
  covered : ℚ
deriving DecidableEq, Repr

/-- `conservativeAggregateForHeldKey(absRem, plan, heldKey, tol)` of
`helpers/moveTo.js`: greedy packing restricted to one held key, up to
`cap = max(0, absRem - tol)`. -/
def conservativeAggregateForHeldKey (absRem : ℚ) (plan : List PlanEntry)
    (heldKey : String) (tol : ℚ) : Option ConsResult :=
  let sameHK := plan.filter (fun p => p.heldKey = heldKey)
  if sameHK = [] then none
  else
    let cap := max 0 (absRem - tol)
    let r := consumePlan cap sameHK 0 []
    if r.2 = [] then none
    else some ⟨r.2, (r.2.map pickMs).sum, (r.2.map (·.repeats)).sum, r.1⟩

/-- The floating-point epsilon `1e-12` used by `aggregateGreedy`. -/
def EPS12 : ℚ := 1 / 10 ^ 12

/-- Result of `aggregateGreedy` (again the `picks` local is kept). -/
structure GreedyResult where
  picks : List Pick
  segments : List Segment
  covered : ℚ
  exactHit : Bool
deriving DecidableEq, Repr

/-- `aggregateGreedy(cap, subPlan, {exact})` of `helpers/moveToTest.js`:
plain greedy consumption of `subPlan` under `cap`; when `exact` and a residual
remains, the first entry whose `step` divides the residual within `1e-12`
(ratio within `1e-12` of an integer) tops the plan off with
`Math.round(residual / step)` repeats. -/
def aggregateGreedy (cap : ℚ) (subPlan : List PlanEntry) (exact : Bool) :
    GreedyResult :=
  if cap ≤ 0 ∨ subPlan = [] then ⟨[], [], 0, decide (cap = 0)⟩
  else
    let r := consumePlan cap subPlan 0 []
    let cp :=
      if exact ∧ r.1 < cap then
        let residual := cap - r.1
        match subPlan.find?
            (fun p => |residual / p.step - jsRound (residual / p.step)| < EPS12) with
        | some p =>
            let repeats : ℤ := jsRound (residual / p.step)
            if 0 < repeats then
              (r.1 + repeats * p.step, r.2 ++ [⟨p.heldKey, p.step, repeats, p.ms⟩])
            else (r.1, r.2)
        | none => (r.1, r.2)
      else (r.1, r.2)
    ⟨cp.2, (groupPicks cp.2).map finalizeSegment, cp.1,
      decide (|cp.1 - cap| < EPS12)⟩

/-- `pickHeldKeyForRemaining(absRem, plan)` of `helpers/moveTo.js`: group the
plan by held key (first-occurrence order, as a JS `Map`), and pick the held
key whose largest step `<= absRem` is largest among the groups. -/
def pickHeldKeyForRemaining (absRem : ℚ) (plan : List PlanEntry) : String :=
  let hks := (plan.map (·.heldKey)).eraseDups
  let best := hks.foldl (fun acc hk =>
      let items := plan.filter (fun p => p.heldKey = hk)
      match items.find? (fun x => x.step ≤ absRem) with
      | some x => if acc.2 < x.step then (hk, x.step) else acc
      | none => acc) ("-", 0)
  best.1

/-- `pickLargestStepWithinHK(absRem, plan, heldKey, tol)` of
`helpers/moveTo.js`: largest step of the given held key that does not
overshoot `cap = max(0, absRem - tol)`. -/
def pickLargestStepWithinHK (absRem : ℚ) (plan : List PlanEntry)
    (heldKey : String) (tol : ℚ) : Option PlanEntry :=
  let cap := max 0 (absRem - tol)
  (plan.filter (fun p => p.heldKey = heldKey)).find? (fun p => p.step ≤ cap)

/-! ### CalibrationTuner: bounded bisection on hold duration -/

/-- `MIN_MS` of `calibration.js`. -/
def MIN_MS : ℕ := 0

/-- `MAX_MS` of `calibration.js`. -/
def MAX_MS : ℕ := 1000

/-- `MAX_SUB_ITERS` of `calibration.js`. -/
def MAX_SUB_ITERS : ℕ := 30

/-- A probe record: the duration tried and the error it produced
(the remaining `best` fields of the source are diagnostic). -/
structure Probe where
  ms : ℕ
  err : ℚ
deriving DecidableEq, Repr

/-- The best-probe update of the tuner loop:
`if (!best || err < best.err) best = { ms, err, ... }`. -/
def updBest (best : Option Probe) (ms : ℕ) (err : ℚ) : Option Probe :=
  match best with
  | none => some ⟨ms, err⟩
  | some b => if err < b.err then some ⟨ms, err⟩ else some b

/-- `Math.round((low + high) / 2)` on non-negative integer brackets. -/
def midMs (low high : ℕ) : ℕ := (low + high + 1) / 2

/-- The shared tuner loop of `tuneForTarget` / `tuneForTargetRotation`:
probe at `ms`, measure (`delta i` is the measured delta of iteration `i`),
track the best (lowest-error) probe, stop early within tolerance, otherwise
narrow the `[low, high]` bracket toward the midpoint, stopping when the
midpoint no longer moves; the iteration budget is `fuel`. -/
def tuneLoop (delta : ℕ → ℚ) (target tol : ℚ) :
    ℕ → ℕ → ℕ → ℕ → ℕ → Option Probe → Option Probe
  | 0, _, _, _, _, best => best
  | fuel + 1, i, low, high, ms, best =>
      let d := delta i
      let err := |d - target|
      let best1 := updBest best ms err
      if err ≤ tol then best1
      else
        let low1 := if target < d then low else ms
        let high1 := if target < d then ms else high
        let next := midMs low1 high1
        if next = ms then best1
        else tuneLoop delta target tol fuel (i + 1) low1 high1 next best1

/-- The probes the loop actually performs (same traversal as `tuneLoop`,
recording `(ms, err)` of every iteration). -/
def tuneProbes (delta : ℕ → ℚ) (target tol : ℚ) :
    ℕ → ℕ → ℕ → ℕ → ℕ → List Probe
  | 0, _, _, _, _ => []
  | fuel + 1, i, low, high, ms =>
      let d := delta i
      let err := |d - target|
      if err ≤ tol then [⟨ms, err⟩]
      else
        let low1 := if target < d then low else ms
        let high1 := if target < d then ms else high
        let next := midMs low1 high1
        if next = ms then [⟨ms, err⟩]
        else ⟨ms, err⟩ :: tuneProbes delta target tol fuel (i + 1) low1 high1 next

/-- `tuneForTarget(target)` of `calibration.js`: bisection over
`[MIN_MS, MAX_MS]` with `MAX_SUB_ITERS` probes; `read` is the sensor oracle,
reads `2*i` and `2*i + 1` bracketing probe `i`
(`measuredDelta = after - before`). -/
def tuneForTarget (read : ℕ → ℚ) (target : ℚ) : Option Probe :=
  tuneLoop (fun i => read (2 * i + 1) - read (2 * i)) target
    (effectiveTolerance target).eff
    MAX_SUB_ITERS 0 MIN_MS MAX_MS (midMs MIN_MS MAX_MS) none

/-- The probe list of a `tuneForTarget` run. -/
def tuneForTargetProbes (read : ℕ → ℚ) (target : ℚ) : List Probe :=
  tuneProbes (fun i => read (2 * i + 1) - read (2 * i)) target
    (effectiveTolerance target).eff
    MAX_SUB_ITERS 0 MIN_MS MAX_MS (midMs MIN_MS MAX_MS)

/-- `tuneForTargetRotation(targetSigned)` of `calibration.js`: same loop with
`target360 = to360(targetSigned)` and
`measuredDelta = forwardDelta360(before, after)`. -/
def tuneForTargetRotation (read : ℕ → ℚ) (targetSigned : ℚ) : Option Probe :=
  let target360 := to360cal targetSigned
  tuneLoop (fun i => forwardDelta360 (read (2 * i)) (read (2 * i + 1))) target360
    (effectiveTolerance target360).eff
    MAX_SUB_ITERS 0 MIN_MS MAX_MS (midMs MIN_MS MAX_MS) none

/-- The probe list of a `tuneForTargetRotation` run. -/
def tuneForTargetRotationProbes (read : ℕ → ℚ) (targetSigned : ℚ) : List Probe :=
  let target360 := to360cal targetSigned
  tuneProbes (fun i => forwardDelta360 (read (2 * i)) (read (2 * i + 1))) target360
    (effectiveTolerance target360).eff
    MAX_SUB_ITERS 0 MIN_MS MAX_MS (midMs MIN_MS MAX_MS)

/-! ### MotionController: the second `moveTo` revision (moveToTest.js, appended) -/

/-- `MAX_REPEATS_PER_BATCH` of the second `moveTo` revision. -/
def MAX_REPEATS_PER_BATCH : ℤ := 200

/-- The per-batch repeat clamp of the second `moveTo` revision:
`repeats = floor((absRem - safety) / chosen.step)`,
`if (!Number.isFinite(repeats) || repeats < 1) repeats = 1`,
`repeats = min(repeats, MAX_REPEATS_PER_BATCH)`.
(When `step = 0`, JS gets a non-finite quotient and resets to 1; `ℚ` division
by zero yields `0 < 1`, resetting to 1 as well.) -/
def batchRepeats (absRem safety step : ℚ) : ℤ :=
  let r0 : ℤ := ⌊(absRem - safety) / step⌋
  let r1 := if r0 < 1 then 1 else r0
  min r1 MAX_REPEATS_PER_BATCH

/-- `chooseStep(absRem)`: largest step `<= absRem`, defaulting to the
smallest plan entry (`undefined`, i.e. `none`, on an empty plan). -/
def chooseStep (plan : List Entry2) (absRem : ℚ) : Option Entry2 :=
  (plan.find? (fun p => p.step ≤ absRem)).orElse (fun _ => plan.getLast?)

/-- `nextStepOf(step)`: the step after the (unique, deduplicated) entry with
this step, defaulting to the smallest step.  (The `findIndex = -1` case is
unreachable: the argument is always a member of the plan.) -/
def nextStepOf (plan : List Entry2) (smallestStep step : ℚ) : ℚ :=
  let idx := plan.findIdx (fun s => s.step = step)
  match plan.get? (idx + 1) with
  | some next => next.step
  | none => smallestStep

/-- One diagnostic row of the second `moveTo` revision's iteration log,
extended with the `absRem`/`safety` values the batch was computed from
(locals of the source loop; the display-only `msTotal` is elided). -/
structure Row2 where
  batch : ℕ
  dir : String
  step : ℚ
  repeats : ℤ
  msEach : JsNum
  heldKey : String
  before : ℚ
  after : ℚ
  delta : ℚ
  remainingAfter : ℚ
  absRem : ℚ
  safety : ℚ
deriving DecidableEq, Repr

/-- The result record of the second `moveTo` revision. -/
structure MoveResult where
  ok : Bool
  reason : String
  steps : ℕ
  final : ℚ
  error : ℚ
  rows : List Row2
deriving DecidableEq, Repr

/-- The batched control loop of the second `moveTo` revision.  `fuel` is the
remaining batch budget (`maxSteps` down to 0), `k` indexes the read oracle,
`none` models the `TypeError` the source hits on an empty plan. -/
def moveToLoop (read : ℕ → ℚ) (dirPos dirNeg : String) (target tol : ℚ)
    (plan : List Entry2) (smallestMaxTries : ℤ) :
    ℕ → ℕ → ℕ → ℚ → ℤ → List Row2 → Option MoveResult
  | 0, _, _, current, _, rows =>
      let finalErr := target - current
      some ⟨decide (|finalErr| ≤ tol), "max_steps", rows.length, current, finalErr, rows⟩
  | fuel + 1, batch, k, current, smallestTries, rows =>
      let remaining := target - current
      let absRem := |remaining|
      if absRem ≤ tol then
        some ⟨true, "within_tolerance", batch - 1, current, remaining, rows⟩
      else
        match chooseStep plan absRem, plan.getLast? with
        | some chosen, some smallest =>
            let dirKey := if 0 < remaining then dirPos else dirNeg
            let isSmallest := chosen.step = smallest.step
            let nextSmaller :=
              if isSmallest then smallest.step
              else nextStepOf plan smallest.step chosen.step
            let safety :=
              if isSmallest then max tol (smallest.step * (1 / 2))
              else max (nextSmaller * (1 / 2)) tol
            let repeats := batchRepeats absRem safety chosen.step
            let after := read k
            let row : Row2 :=
              ⟨batch, dirKey, chosen.step, repeats, chosen.ms, chosen.heldKey,
               current, after, after - current, target - after, absRem, safety⟩
            let rows1 := rows ++ [row]
            if isSmallest then
              let st1 := smallestTries + repeats
              if smallestMaxTries ≤ st1 then
                let finalRem := target - after
                if |finalRem| ≤ tol then
                  some ⟨true, "within_tolerance", batch, after, finalRem, rows1⟩
                else
                  some ⟨false, "smallest_step_exhausted", batch, after, finalRem, rows1⟩
              else
                moveToLoop read dirPos dirNeg target tol plan smallestMaxTries
                  fuel (batch + 1) (k + 1) after st1 rows1
            else
              moveToLoop read dirPos dirNeg target tol plan smallestMaxTries
                fuel (batch + 1) (k + 1) after 0 rows1
        | _, _ => none

/-- `moveTo` (second revision, appended in `helpers/moveToTest.js`): build the
plan, compute the effective tolerance, read once, then run the batched loop.
`none` models a thrown error (empty calibration argument, or the `TypeError`
on a plan with no usable entry). -/
def moveTo2 (read : ℕ → ℚ) (target : ℚ) (calibration : List CalRecord)
    (relPct absTol : ℚ) (maxSteps : ℕ) (smallestMaxTries : ℤ)
    (dirPos dirNeg : String) : Option MoveResult :=
  if calibration = [] then none
  else
    let plan := toMapByStep2 calibration
    let tol := effectiveFinalTolerance target relPct absTol
    let current0 := read 0
    moveToLoop read dirPos dirNeg target tol plan smallestMaxTries
      maxSteps 1 1 current0 0 []

/-! ### MotionController: the first `moveTo` revision (helpers/moveTo.js) -/

/-- The pre-pass of the first `moveTo` revision (`MAX_PREPASS_CYCLES = 9`
cycles): phase A executes the all-held-keys aggregate (one re-read per cycle,
one diagnostic row per segment), phase B one single calibrated step; the cycle
loop breaks when within tolerance or when neither phase found work.
State: `(current, readIndex, rowCount)`; row contents are diagnostic and only
their count feeds the main loop's bound. -/
def prepassLoop (read : ℕ → ℚ) (target tol : ℚ) (plan : List PlanEntry) :
    ℕ → ℚ → ℕ → ℕ → ℚ × ℕ × ℕ
  | 0, current, k, rows => (current, k, rows)
  | fuel + 1, current, k, rows =>
      let remainingA := target - current
      let absRemA := |remainingA|
      if absRemA ≤ tol then (current, k, rows)
      else
        let aggAll := aggregateAllHeldKeys absRemA plan tol
        let st1 :=
          match aggAll with
          | some agg => (read k, k + 1, rows + agg.segments.length)
          | none => (current, k, rows)
        let remainingB := target - st1.1
        let absRemB := |remainingB|
        if absRemB ≤ tol then st1
        else
          let hkB := pickHeldKeyForRemaining absRemB plan
          let singleEntry := pickLargestStepWithinHK absRemB plan hkB tol
          let st2 :=
            match singleEntry with
            | some _ => (read st1.2.1, st1.2.1 + 1, st1.2.2 + 1)
            | none => st1
          if aggAll = none ∧ singleEntry = none then st2
          else prepassLoop read target tol plan fuel st2.1 st2.2.1 st2.2.2

/-- The main loop of the first `moveTo` revision:
`while (|target - current| > tol && rows.length < maxSteps)`, each batch
taking `max(1, floor(cap / chosen.step))` repeats of the largest step within
`cap = max(0, absRem - tol)` (falling back to the smallest entry).  `fuel`
only forces termination; it is called with `fuel = maxSteps`, which the row
bound makes sufficient.  The `none`-plan fallback branch is unreachable
(`moveTo1` rejects empty plans). -/
def mainLoop1 (read : ℕ → ℚ) (target tol : ℚ) (plan : List PlanEntry)
    (maxSteps : ℕ) : ℕ → ℚ → ℕ → ℕ → ℚ × ℕ × ℕ
  | 0, current, k, rows => (current, k, rows)
  | fuel + 1, current, k, rows =>
      if tol < |target - current| ∧ rows < maxSteps then
        let remaining := target - current
        let absRem := |remaining|
        let cap := max 0 (absRem - tol)
        match (plan.find? (fun p => p.step ≤ cap)).orElse (fun _ => plan.getLast?) with
        | some _ =>
            let after := read k
            mainLoop1 read target tol plan maxSteps fuel after (k + 1) (rows + 1)
        | none => (current, k, rows)
      else (current, k, rows)

/-- The smallest-step nudge loop of the first `moveTo` revision:
up to `smallestMaxTries` single presses of the smallest entry (the budget is
the `fuel` argument). -/
def nudgeLoop1 (read : ℕ → ℚ) (target tol : ℚ) (plan : List PlanEntry) :
    ℕ → ℚ → ℕ → ℕ → ℚ × ℕ × ℕ
  | 0, current, k, rows => (current, k, rows)
  | fuel + 1, current, k, rows =>
      if tol < |target - current| then
        match plan.getLast? with
        | some _ => nudgeLoop1 read target tol plan fuel (read k) (k + 1) (rows + 1)
        | none => (current, k, rows)
      else (current, k, rows)

/-- The result of the first `moveTo` revision (the `rows` payload is
diagnostic; `steps` is its length). -/
structure Move1Result where
  ok : Bool
  reason : String
  steps : ℕ
  final : ℚ
  error : ℚ
deriving DecidableEq, Repr

/-- `moveTo` (first revision, `helpers/moveTo.js`): validate the calibration,
build the plan, compute the span-based tolerance, run pre-pass → main loop →
smallest-step nudges, and report `ok`/`reason` from the final error.
`none` models the two thrown validation errors. -/
def moveTo1 (read : ℕ → ℚ) (target : ℚ) (calibration : List CalRecord)
    (relPct absTol : ℚ) (maxSteps smallestMaxTries : ℕ) : Option Move1Result :=
  if calibration = [] then none
  else
    let plan := toMapByStep1 calibration
    if plan = [] then none
    else
      let current0 := read 0
      let tol := moveToTol target current0 relPct absTol
      let s1 := prepassLoop read target tol plan 9 current0 1 0
      let s2 := mainLoop1 read target tol plan maxSteps maxSteps s1.1 s1.2.1 s1.2.2
      let s3 := nudgeLoop1 read target tol plan smallestMaxTries s2.1 s2.2.1 s2.2.2
      let finalErr := target - s3.1
      some ⟨decide (|finalErr| ≤ tol),
            if |finalErr| ≤ tol then "ok" else "max_steps",
            s3.2.2, s3.1, finalErr⟩

/-! ### Sortedness and membership of the stable descending sort -/

theorem mem_insertByDesc (key : α → ℚ) (e : α) :
    ∀ (l : List α) (a : α), a ∈ insertByDesc key e l ↔ a = e ∨ a ∈ l := by
  intro l
  induction l with
  | nil => simp [insertByDesc]
  | cons x xs ih =>
      intro a
      simp only [insertByDesc]
      split
      · simp only [List.mem_cons, ih]
        tauto
      · simp only [List.mem_cons]

theorem insertByDesc_pairwise (key : α → ℚ) (e : α) :
    ∀ l : List α, l.Pairwise (fun a b => key b ≤ key a) →
      (insertByDesc key e l).Pairwise (fun a b => key b ≤ key a) := by
  intro l
  induction l with
  | nil => simp [insertByDesc]
  | cons x xs ih =>
      intro h
      rw [List.pairwise_cons] at h
      simp only [insertByDesc]
      split
      · rw [List.pairwise_cons]
        refine ⟨?_, ih h.2⟩
        intro a ha
        rcases (mem_insertByDesc key e xs a).mp ha with rfl | ha
        · assumption
        · exact h.1 a ha
      · rename_i hxe
        have hlt : key x < key e := lt_of_not_le hxe
        rw [List.pairwise_cons]
        constructor
        · intro a ha
          rcases List.mem_cons.mp ha with rfl | ha
          · exact le_of_lt hlt
          · exact le_trans (h.1 a ha) (le_of_lt hlt)
        · exact List.pairwise_cons.mpr h

theorem sortByDesc_pairwise_aux (key : α → ℚ) :
    ∀ (l acc : List α), acc.Pairwise (fun a b => key b ≤ key a) →
      (l.foldl (fun acc e => insertByDesc key e acc) acc).Pairwise
        (fun a b => key b ≤ key a) := by
  intro l
  induction l with
  | nil => intro acc h; simpa using h
  | cons x xs ih =>
      intro acc h
      exact ih _ (insertByDesc_pairwise key x acc h)

/-- The stable descending sort indeed sorts descending by `key`. -/
theorem sortByDesc_pairwise (key : α → ℚ) (l : List α) :
    (sortByDesc key l).Pairwise (fun a b => key b ≤ key a) :=
  sortByDesc_pairwise_aux key l [] (by simp)

theorem mem_sortByDesc_aux (key : α → ℚ) :
    ∀ (l acc : List α) (a : α),
      a ∈ l.foldl (fun acc e => insertByDesc key e acc) acc ↔ a ∈ acc ∨ a ∈ l := by
  intro l
  induction l with
  | nil => simp
  | cons x xs ih =>
      intro acc a
      simp only [List.foldl_cons, ih, mem_insertByDesc, List.mem_cons]
      tauto

/-- Sorting neither adds nor removes entries. -/
theorem mem_sortByDesc (key : α → ℚ) (l : List α) (a : α) :
    a ∈ sortByDesc key l ↔ a ∈ l := by
  simp [sortByDesc, mem_sortByDesc_aux]

/-- Entries surviving the first revision's sanitization filter are positive. -/
theorem toMapByStep1_pos (recs : List CalRecord) :
    ∀ e ∈ toMapByStep1 recs, 0 < e.step ∧ 0 < e.ms := by
  intro e he
  rw [toMapByStep1, mem_sortByDesc] at he
  rcases List.mem_filterMap.mp he with ⟨c, _, hfc⟩
  rcases c with ⟨tgt, cms, hk⟩
  cases tgt with
  | nonfin => simp at hfc
  | fin s =>
      cases cms with
      | nonfin => simp at hfc
      | fin m =>
          simp only at hfc
          split at hfc
          next hcond => cases hfc; exact hcond
          next => cases hfc

/-- Entries surviving `buildPlan`'s sanitization filter are positive. -/
theorem buildPlan_pos (recs : List CalRecord) :
    ∀ e ∈ buildPlan recs, 0 < e.step ∧ 0 < e.ms := by
  intro e he
  rw [buildPlan, mem_sortByDesc] at he
  rcases List.mem_filterMap.mp he with ⟨c, _, hfc⟩
  rcases c with ⟨tgt, cms, hk⟩
  cases tgt with
  | nonfin => simp at hfc
  | fin s =>
      cases cms with
      | nonfin => simp at hfc
      | fin m =>
          simp only at hfc
          split at hfc
          next hcond => cases hfc; exact hcond
          next => cases hfc

/-- C6: the claim that **every** consumer of the calibration file re-sorts
descending by step **and** discards records with non-finite or non-positive
`target`/`ms` is false: the second revision's `toMapByStep` keeps a record
with negative `target` and zero `ms`. -/
theorem C6_counterexample :
    toMapByStep2 [⟨JsNum.fin (-5), JsNum.fin 0, none⟩]
        = [⟨-5, JsNum.fin 0, "-"⟩] ∧
    ¬ (0 < (-5 : ℚ)) ∧ ¬ (0 < (0 : ℚ)) := by
  refine ⟨by decide, by norm_num, by norm_num⟩

/-- C6 (amended): every consumer re-sorts descending by `step`; the first
revision's `toMapByStep` and `buildPlan` additionally discard all records
with non-finite or non-positive `target`/`ms`, while the second revision's
`toMapByStep` only drops non-finite targets (and duplicate steps), keeping
non-positive targets and unvalidated `ms`. -/
theorem C6_plan_sanitization :
    (∀ recs : List CalRecord,
        (toMapByStep1 recs).Pairwise (fun a b => b.step ≤ a.step) ∧
        ∀ e ∈ toMapByStep1 recs, 0 < e.step ∧ 0 < e.ms) ∧
    (∀ recs : List CalRecord,
        (buildPlan recs).Pairwise (fun a b => b.step ≤ a.step) ∧
        ∀ e ∈ buildPlan recs, 0 < e.step ∧ 0 < e.ms) ∧
    (∀ recs : List CalRecord,
        (toMapByStep2 recs).Pairwise (fun a b => b.step ≤ a.step)) := by
  refine ⟨fun recs => ⟨?_, toMapByStep1_pos recs⟩,
          fun recs => ⟨?_, buildPlan_pos recs⟩,
          fun recs => ?_⟩
  · exact sortByDesc_pairwise (fun e : PlanEntry => e.step) _
  · exact sortByDesc_pairwise (fun e : PlanEntry => e.step) _
  · exact sortByDesc_pairwise (fun e : Entry2 => e.step) _

/-- C6 witness: the amended sanitization evaluated on a concrete unsorted,
partly invalid calibration file. -/
theorem C6_witness :
    (toMapByStep1 [⟨JsNum.fin 1, JsNum.fin 5, none⟩, ⟨JsNum.nonfin, JsNum.fin 2, none⟩,
        ⟨JsNum.fin 10, JsNum.fin 80, some "TRIANGLE"⟩]).Pairwise
      (fun a b => b.step ≤ a.step) ∧
    (0 : ℚ) < (PlanEntry.mk 10 80 "TRIANGLE").step ∧
    (0 : ℚ) < (PlanEntry.mk 10 80 "TRIANGLE").ms :=
  ⟨(C6_plan_sanitization.1 _).1,
   ((C6_plan_sanitization.1 [⟨JsNum.fin 1, JsNum.fin 5, none⟩,
        ⟨JsNum.nonfin, JsNum.fin 2, none⟩,
        ⟨JsNum.fin 10, JsNum.fin 80, some "TRIANGLE"⟩]).2 ⟨10, 80, "TRIANGLE"⟩
      (by decide)).1,
   ((C6_plan_sanitization.1 [⟨JsNum.fin 1, JsNum.fin 5, none⟩,
        ⟨JsNum.nonfin, JsNum.fin 2, none⟩,
        ⟨JsNum.fin 10, JsNum.fin 80, some "TRIANGLE"⟩]).2 ⟨10, 80, "TRIANGLE"⟩
      (by decide)).2⟩

/-- C2: the claim that the motion controller's tolerance equals
`max(absTol, |target| * relPct)` fails on the first `moveTo` revision, which
divides `relPct` by 100 and scales by a span floored at 1: at
`target = 2, relPct = 100, absTol = 0` the code yields `2`, the claimed
formula `200`. -/
theorem C2_counterexample :
    moveToTol 2 0 100 0 = 2 ∧
    max (0 : ℚ) (|(2 : ℚ)| * 100) = 200 ∧
    moveToTol 2 0 100 0 ≠ max (0 : ℚ) (|(2 : ℚ)| * 100) := by
  norm_num [moveToTol]

/-- C2 (amended): `effectiveTolerance` (calibration) and
`effectiveFinalTolerance` (second `moveTo` revision) compute
`max(absolute, |target| * relativePct)`, total, non-negative and deterministic;
the first `moveTo` revision instead computes
`max(absTol, relPct/100 * span)` with `span = max(1, |target| or |current| or 1)`. -/
theorem C2_effective_tolerance :
    (∀ target relPct absTol : ℚ,
        effectiveFinalTolerance target relPct absTol = max absTol (|target| * relPct)) ∧
    (∀ target relPct absTol : ℚ, 0 ≤ absTol → 0 ≤ relPct →
        0 ≤ effectiveFinalTolerance target relPct absTol) ∧
    (∀ target : ℚ,
        (effectiveTolerance target).eff = max CAL_ABS_TOL (|target| * CAL_TOL_PCT) ∧
        0 ≤ (effectiveTolerance target).eff) ∧
    (∀ target current relPct absTol : ℚ,
        moveToTol target current relPct absTol
          = max absTol (relPct / 100 *
              max 1 (if |target| = 0 then (if |current| = 0 then 1 else |current|)
                     else |target|))) := by
  refine ⟨fun t r a => rfl, fun t r a ha hr => ?_, fun t => ⟨rfl, ?_⟩, fun t c r a => rfl⟩
  · exact le_trans ha (le_max_left _ _)
  · refine le_trans ?_ (le_max_left _ _)
    norm_num [CAL_ABS_TOL]

/-- C2 witness: the amended tolerance facts at `target = -3`,
`relPct = 1/2`, `absTol = 1`. -/
theorem C2_witness :
    effectiveFinalTolerance (-3) (1/2) 1 = max 1 (|(-3 : ℚ)| * (1/2)) ∧
    (0 : ℚ) ≤ 1 ∧ (0 : ℚ) ≤ 1/2 ∧
    0 ≤ effectiveFinalTolerance (-3) (1/2) 1 ∧
    (effectiveTolerance (-3)).eff = max CAL_ABS_TOL (|(-3 : ℚ)| * CAL_TOL_PCT) :=
  ⟨C2_effective_tolerance.1 (-3) (1/2) 1, by norm_num, by norm_num,
   C2_effective_tolerance.2.1 (-3) (1/2) 1 (by norm_num) (by norm_num),
   (C2_effective_tolerance.2.2.1 (-3)).1⟩

/-- C7: `to360From180` returns `270/0/180` on `-90/0/180`, rejects `200`
(and exactly the inputs outside `[-180, 180]`) with a `RangeError`, and on
`[-180, 180]` returns `360 + a` for negative `a`, `a` otherwise — always in
`[0, 360)`. -/
theorem C7_to360_strict :
    to360From180 (-90) = Except.ok 270 ∧
    to360From180 0 = Except.ok 0 ∧
    to360From180 180 = Except.ok 180 ∧
    to360From180 200 = Except.error "Input must be between -180 and 180" ∧
    (∀ a : ℚ, (a < -180 ∨ 180 < a) ↔
        to360From180 a = Except.error "Input must be between -180 and 180") ∧
    (∀ a : ℚ, -180 ≤ a → a ≤ 180 →
        ∃ r, to360From180 a = Except.ok r ∧
          r = (if a < 0 then 360 + a else a) ∧ 0 ≤ r ∧ r < 360) := by
  refine ⟨by norm_num [to360From180], by norm_num [to360From180],
          by norm_num [to360From180], by norm_num [to360From180],
          fun a => ?_, fun a h1 h2 => ?_⟩
  · constructor
    · intro h
      simp [to360From180, h]
    · intro h
      by_contra hout
      push_neg at hout
      have hn : ¬(a < -180 ∨ 180 < a) := by
        rintro (hx | hx) <;> linarith [hout.1, hout.2]
      rw [to360From180, if_neg hn] at h
      split at h <;> simp at h
  · have hn : ¬(a < -180 ∨ 180 < a) := by rintro (hx | hx) <;> linarith
    refine ⟨if a < 0 then 360 + a else a, ?_, rfl, ?_, ?_⟩
    · rw [to360From180, if_neg hn]
      by_cases hca : a < 0 <;> simp [hca]
    · by_cases hca : a < 0
      · rw [if_pos hca]; linarith
      · rw [if_neg hca]; linarith
    · by_cases hca : a < 0
      · rw [if_pos hca]; linarith
      · rw [if_neg hca]; linarith

/-- C7 witness: the range-checked conversion at `a = -1/2`. -/
theorem C7_witness :
    to360From180 (-1/2)
      = Except.ok (if (-1/2 : ℚ) < 0 then 360 + (-1/2) else -1/2) := by
  obtain ⟨r, h1, h2, _, _⟩ :=
    C7_to360_strict.2.2.2.2.2 (-1/2) (by norm_num) (by norm_num)
  rw [h1, h2]

/-! ### Bounds for the JavaScript remainder and the rotation normalizer -/

theorem jsMod_bounds_nonneg (a b : ℚ) (hb : 0 < b) (ha : 0 ≤ a) :
    0 ≤ jsMod a b ∧ jsMod a b < b := by
  have hq : (0 : ℚ) ≤ a / b := div_nonneg ha hb.le
  have hfl : (⌊a / b⌋ : ℚ) ≤ a / b := Int.floor_le _
  have hlt : a / b < ⌊a / b⌋ + 1 := Int.lt_floor_add_one _
  have hab : a / b * b = a := div_mul_cancel₀ a hb.ne'
  rw [jsMod, jsTrunc, if_pos hq]
  constructor
  · have h := mul_le_mul_of_nonneg_right hfl hb.le
    nlinarith
  · have h := mul_lt_mul_of_pos_right hlt hb
    nlinarith

theorem jsMod_bounds_neg (a b : ℚ) (hb : 0 < b) (ha : a < 0) :
    -b < jsMod a b ∧ jsMod a b ≤ 0 := by
  have hq : ¬ (0 : ℚ) ≤ a / b := by
    rw [not_le]
    exact div_neg_of_neg_of_pos ha hb
  have hcl : a / b ≤ ⌈a / b⌉ := Int.le_ceil _
  have hgt : (⌈a / b⌉ : ℚ) < a / b + 1 := Int.ceil_lt_add_one _
  have hab : a / b * b = a := div_mul_cancel₀ a hb.ne'
  rw [jsMod, jsTrunc, if_neg hq]
  constructor
  · have h := mul_lt_mul_of_pos_right hgt hb
    nlinarith
  · have h := mul_le_mul_of_nonneg_right hcl hb.le
    nlinarith

/-- `((a % 360) + 360) % 360` always lands in `[0, 360)`. -/
theorem doubleMod_range (a : ℚ) :
    0 ≤ jsMod (jsMod a 360 + 360) 360 ∧ jsMod (jsMod a 360 + 360) 360 < 360 := by
  have h360 : (0 : ℚ) < 360 := by norm_num
  have hx : 0 ≤ jsMod a 360 + 360 := by
    rcases le_or_lt 0 a with ha | ha
    · have := (jsMod_bounds_nonneg a 360 h360 ha).1
      linarith
    · have := (jsMod_bounds_neg a 360 h360 ha).1
      linarith
  exact jsMod_bounds_nonneg _ 360 h360 hx

/-- `normSigned` is the identity on its canonical range `(-180, 180]`. -/
theorem normSigned_id (a : ℚ) (h1 : -180 < a) (h2 : a ≤ 180) : normSigned a = a := by
  have h360 : (0 : ℚ) < 360 := by norm_num
  rcases le_or_lt 0 a with ha | ha
  · have hq : (0 : ℚ) ≤ a / 360 := by positivity
    have hfl : ⌊a / 360⌋ = 0 := by
      rw [Int.floor_eq_zero_iff]
      constructor
      · exact hq
      · rw [div_lt_one h360]
        linarith
    have mod1 : jsMod a 360 = a := by
      rw [jsMod, jsTrunc, if_pos hq, hfl]
      push_cast
      ring
    have hq2 : (0 : ℚ) ≤ (a + 360) / 360 := by positivity
    have hfl2 : ⌊(a + 360) / 360⌋ = 1 := by
      rw [Int.floor_eq_iff]
      constructor
      · push_cast
        rw [le_div_iff₀ h360]
        linarith
      · push_cast
        rw [div_lt_iff₀ h360]
        linarith
    have mod2 : jsMod (a + 360) 360 = a := by
      rw [jsMod, jsTrunc, if_pos hq2, hfl2]
      push_cast
      ring
    rw [normSigned]
    simp only [mod1, mod2]
    rw [if_neg (by linarith)]
  · have hq : ¬ (0 : ℚ) ≤ a / 360 := by
      rw [not_le]
      exact div_neg_of_neg_of_pos ha h360
    have hcl : ⌈a / 360⌉ = 0 := by
      rw [Int.ceil_eq_zero_iff]
      constructor
      · rw [neg_lt, ← neg_div, div_lt_one h360]
        linarith
      · exact le_of_lt (div_neg_of_neg_of_pos ha h360)
    have mod1 : jsMod a 360 = a := by
      rw [jsMod, jsTrunc, if_neg hq, hcl]
      push_cast
      ring
    have hq2 : (0 : ℚ) ≤ (a + 360) / 360 := by
      apply div_nonneg _ h360.le
      linarith
    have hfl2 : ⌊(a + 360) / 360⌋ = 0 := by
      rw [Int.floor_eq_zero_iff]
      constructor
      · exact hq2
      · rw [div_lt_one h360]
        linarith
    have mod2 : jsMod (a + 360) 360 = a + 360 := by
      rw [jsMod, jsTrunc, if_pos hq2, hfl2]
      push_cast
      ring
    rw [normSigned]
    simp only [mod1, mod2]
    rw [if_pos (by linarith)]
    ring

/-- C8: on `(-180, 180]` the signed normalizer is idempotent (indeed the
identity), the `((a % 360) + 360) % 360` conversion of such an angle lies in
`[0, 360)`, and `normSigned` of any finite angle lies in `(-180, 180]`. -/
theorem C8_rotation_roundtrip :
    (∀ a : ℚ, -180 < a → a ≤ 180 → normSigned (normSigned a) = normSigned a) ∧
    (∀ a : ℚ, -180 < a → a ≤ 180 → 0 ≤ to360part5 a ∧ to360part5 a < 360) ∧
    (∀ a : ℚ, -180 < normSigned a ∧ normSigned a ≤ 180) := by
  refine ⟨fun a h1 h2 => ?_, fun a _ _ => doubleMod_range a, fun a => ?_⟩
  · have h := normSigned_id a h1 h2
    rw [h]
    exact h
  · have h := doubleMod_range a
    rw [normSigned]
    split
    · constructor <;> linarith [h.1, h.2]
    · rename_i hr
      push_neg at hr
      constructor <;> linarith [h.1]

/-- C8 witness: the round-trip facts at the in-range angle `a = -90`. -/
theorem C8_witness :
    normSigned (normSigned (-90)) = normSigned (-90) ∧
    (0 ≤ to360part5 (-90) ∧ to360part5 (-90) < 360) ∧
    (-180 < normSigned (-90) ∧ normSigned (-90) ≤ 180) :=
  ⟨C8_rotation_roundtrip.1 (-90) (by norm_num) (by norm_num),
   C8_rotation_roundtrip.2.1 (-90) (by norm_num) (by norm_num),
   C8_rotation_roundtrip.2.2 (-90)⟩

/-! ### Terminal behaviour of the second `moveTo` revision -/

theorem getLast?_some_of_ne_nil (plan : List Entry2) (hplan : plan ≠ []) :
    ∃ l, plan.getLast? = some l := by
  rw [← Option.isSome_iff_exists, List.getLast?_isSome]
  exact hplan

theorem chooseStep_isSome (plan : List Entry2) (hplan : plan ≠ []) (absRem : ℚ) :
    ∃ c, chooseStep plan absRem = some c := by
  rw [chooseStep]
  cases hf : plan.find? (fun p => decide (p.step ≤ absRem)) with
  | some c => exact ⟨c, rfl⟩
  | none =>
      obtain ⟨l, hl⟩ := getLast?_some_of_ne_nil plan hplan
      refine ⟨l, ?_⟩
      simp [Option.orElse, hl]

/-- Every run of the batched loop on a non-empty plan terminates with one of
the three documented reasons, a signed error consistent with the final
reading, `ok = true` on convergence and `ok = false` on nudge exhaustion. -/
theorem moveToLoop_spec (read : ℕ → ℚ) (dirPos dirNeg : String) (target tol : ℚ)
    (plan : List Entry2) (smt : ℤ) (hplan : plan ≠ []) :
    ∀ fuel batch k current st rows,
      ∃ r, moveToLoop read dirPos dirNeg target tol plan smt
              fuel batch k current st rows = some r ∧
        (r.reason = "within_tolerance" ∨ r.reason = "smallest_step_exhausted" ∨
          r.reason = "max_steps") ∧
        r.error = target - r.final ∧
        (r.reason = "within_tolerance" → r.ok = true) ∧
        (r.reason = "smallest_step_exhausted" → r.ok = false) ∧
        (r.reason = "max_steps" → r.ok = decide (|r.error| ≤ tol)) := by
  intro fuel
  induction fuel with
  | zero =>
      intro batch k current st rows
      refine ⟨_, rfl, Or.inr (Or.inr rfl), rfl, by simp, by simp, fun _ => rfl⟩
  | succ fuel ih =>
      intro batch k current st rows
      simp only [moveToLoop]
      by_cases htol : |target - current| ≤ tol
      · rw [if_pos htol]
        exact ⟨_, rfl, Or.inl rfl, rfl, fun _ => rfl, by simp, by simp⟩
      · rw [if_neg htol]
        obtain ⟨c, hc⟩ := chooseStep_isSome plan hplan |target - current|
        obtain ⟨l, hl⟩ := getLast?_some_of_ne_nil plan hplan
        rw [hc, hl]
        by_cases hsm : c.step = l.step
        · simp only [if_pos hsm]
          by_cases hst : smt ≤ st + batchRepeats |target - current|
              (max tol (l.step * (1 / 2))) c.step
          · rw [if_pos hst]
            by_cases hfin : |target - read k| ≤ tol
            · rw [if_pos hfin]
              exact ⟨_, rfl, Or.inl rfl, rfl, fun _ => rfl, by simp, by simp⟩
            · rw [if_neg hfin]
              exact ⟨_, rfl, Or.inr (Or.inl rfl), rfl, by simp, fun _ => rfl, by simp⟩
          · rw [if_neg hst]
            exact ih (batch + 1) (k + 1) (read k) _ _
        · simp only [if_neg hsm]
          exact ih (batch + 1) (k + 1) (read k) 0 _

/-- Every diagnostic row the batched loop emits carries the repeat count
computed by `batchRepeats` from the row's own `absRem`/`safety`/`step`. -/
theorem moveToLoop_rows (read : ℕ → ℚ) (dirPos dirNeg : String) (target tol : ℚ)
    (plan : List Entry2) (smt : ℤ) :
    ∀ fuel batch k current st rows r,
      moveToLoop read dirPos dirNeg target tol plan smt
          fuel batch k current st rows = some r →
      (∀ row ∈ rows, row.repeats = batchRepeats row.absRem row.safety row.step) →
      ∀ row ∈ r.rows, row.repeats = batchRepeats row.absRem row.safety row.step := by
  intro fuel
  induction fuel with
  | zero =>
      intro batch k current st rows r hr hrows
      simp only [moveToLoop] at hr
      cases hr
      exact hrows
  | succ fuel ih =>
      intro batch k current st rows r hr hrows
      simp only [moveToLoop] at hr
      by_cases htol : |target - current| ≤ tol
      · rw [if_pos htol] at hr
        cases hr
        exact hrows
      · rw [if_neg htol] at hr
        cases hc : chooseStep plan |target - current| with
        | none =>
            rw [hc] at hr
            cases hl : plan.getLast? with
            | none => rw [hl] at hr; cases hr
            | some l => rw [hl] at hr; cases hr
        | some c =>
            rw [hc] at hr
            cases hl : plan.getLast? with
            | none => rw [hl] at hr; cases hr
            | some l =>
                rw [hl] at hr
                have hrow1 : ∀ (safety : ℚ),
                    ∀ row ∈ rows ++
                      [Row2.mk batch (if 0 < target - current then dirPos else dirNeg)
                        c.step (batchRepeats |target - current| safety c.step) c.ms
                        c.heldKey current (read k) (read k - current)
                        (target - read k) |target - current| safety],
                      row.repeats = batchRepeats row.absRem row.safety row.step := by
                  intro safety row hrow
                  rcases List.mem_append.mp hrow with hrow | hrow
                  · exact hrows row hrow
                  · rw [List.mem_singleton] at hrow
                    subst hrow
                    rfl
                by_cases hsm : c.step = l.step
                · simp only [if_pos hsm] at hr
                  by_cases hst : smt ≤ st + batchRepeats |target - current|
                      (max tol (l.step * (1 / 2))) c.step
                  · rw [if_pos hst] at hr
                    by_cases hfin : |target - read k| ≤ tol
                    · rw [if_pos hfin] at hr
                      cases hr
                      exact hrow1 _
                    · rw [if_neg hfin] at hr
                      cases hr
                      exact hrow1 _
                  · rw [if_neg hst] at hr
                    exact ih _ _ _ _ _ _ hr (hrow1 _)
                · simp only [if_neg hsm] at hr
                  exact ih _ _ _ _ _ _ hr (hrow1 _)

theorem moveTo1_reasons (read : ℕ → ℚ) (target : ℚ) (calibration : List CalRecord)
    (relPct absTol : ℚ) (maxSteps smallestMaxTries : ℕ) (r : Move1Result) :
    moveTo1 read target calibration relPct absTol maxSteps smallestMaxTries = some r →
    (r.reason = "ok" ∨ r.reason = "max_steps") ∧ r.error = target - r.final := by
  intro h
  simp only [moveTo1] at h
  split at h
  · cases h
  · split at h
    · cases h
    · cases h
      constructor
      · dsimp only
        split
        · exact Or.inl rfl
        · exact Or.inr rfl
      · rfl

set_option maxRecDepth 8000 in
/-- C4: the claim holds of the second `moveTo` revision, but the first
revision reports success with `reason = "ok"`, which is outside the claimed
reason set: a run that starts within tolerance returns `"ok"`. -/
theorem C4_counterexample :
    moveTo1 (fun _ => 5) 5 [⟨JsNum.fin 1, JsNum.fin 10, none⟩] 0 (1 / 1000) 200 50
        = some ⟨true, "ok", 0, 5, 0⟩ ∧
    ("ok" ≠ "within_tolerance" ∧ "ok" ≠ "smallest_step_exhausted" ∧
      "ok" ≠ "max_steps") := by
  constructor
  · norm_num [moveTo1, moveToTol, toMapByStep1, sortByDesc, insertByDesc,
      prepassLoop, mainLoop1, nudgeLoop1, List.filterMap]
  · refine ⟨by decide, by decide, by decide⟩

/-- C4 (amended): the second `moveTo` revision never throws once the plan is
non-empty — it returns `ok/reason/final/error` with
`reason ∈ {within_tolerance, smallest_step_exhausted, max_steps}`,
`error = target - final`, `ok = true` on convergence and `ok = false` on
smallest-step exhaustion; the first revision likewise returns an ordinary
result but reports `"ok"` (not `"within_tolerance"`) on success and
`"max_steps"` otherwise. -/
theorem C4_terminal_reasons :
    (∀ (read : ℕ → ℚ) (target : ℚ) (calibration : List CalRecord)
        (relPct absTol : ℚ) (maxSteps : ℕ) (smallestMaxTries : ℤ)
        (dirPos dirNeg : String),
        calibration ≠ [] → toMapByStep2 calibration ≠ [] →
        ∃ r, moveTo2 read target calibration relPct absTol maxSteps
                smallestMaxTries dirPos dirNeg = some r ∧
          (r.reason = "within_tolerance" ∨ r.reason = "smallest_step_exhausted" ∨
            r.reason = "max_steps") ∧
          r.error = target - r.final ∧
          (r.reason = "within_tolerance" → r.ok = true) ∧
          (r.reason = "smallest_step_exhausted" → r.ok = false) ∧
          (r.reason = "max_steps" →
            r.ok = decide (|r.error| ≤ effectiveFinalTolerance target relPct absTol))) ∧
    (∀ (read : ℕ → ℚ) (target : ℚ) (calibration : List CalRecord)
        (relPct absTol : ℚ) (maxSteps smallestMaxTries : ℕ) (r : Move1Result),
        moveTo1 read target calibration relPct absTol maxSteps smallestMaxTries = some r →
        (r.reason = "ok" ∨ r.reason = "max_steps") ∧ r.error = target - r.final) := by
  constructor
  · intro read target calibration relPct absTol maxSteps smt dirPos dirNeg hcal hplan
    have h := moveToLoop_spec read dirPos dirNeg target
      (effectiveFinalTolerance target relPct absTol)
      (toMapByStep2 calibration) smt hplan maxSteps 1 1 (read 0) 0 []
    rw [moveTo2, if_neg hcal]
    exact h
  · intro read target calibration relPct absTol maxSteps smt r
    exact moveTo1_reasons read target calibration relPct absTol maxSteps smt r

/-- C4 witness: the amended terminal-behaviour statement instantiated on a
concrete one-entry calibration: the run returns an ordinary result. -/
theorem C4_witness :
    (moveTo2 (fun _ => 0) 10 [⟨JsNum.fin 1, JsNum.fin 10, none⟩]
        0 (1 / 1000) 3 50 "DPAD_RIGHT" "DPAD_LEFT").isSome = true := by
  obtain ⟨r, hr, _⟩ := C4_terminal_reasons.1 (fun _ => 0) 10
    [⟨JsNum.fin 1, JsNum.fin 10, none⟩] 0 (1 / 1000) 3 50
    "DPAD_RIGHT" "DPAD_LEFT" (by decide) (by decide)
  rw [hr]
  rfl

/-- C10: every batch of the second revision's main loop executes exactly
`min(200, max(1, floor((absRem - safety) / chosenStep)))` repeats — at least
one and at most `MAX_REPEATS_PER_BATCH = 200`. -/
theorem C10_batch_repeats :
    (∀ absRem safety step : ℚ,
        batchRepeats absRem safety step
          = min 200 (max 1 ⌊(absRem - safety) / step⌋) ∧
        1 ≤ batchRepeats absRem safety step ∧
        batchRepeats absRem safety step ≤ 200) ∧
    (∀ (read : ℕ → ℚ) (target : ℚ) (calibration : List CalRecord)
        (relPct absTol : ℚ) (maxSteps : ℕ) (smallestMaxTries : ℤ)
        (dirPos dirNeg : String) (r : MoveResult),
        moveTo2 read target calibration relPct absTol maxSteps
            smallestMaxTries dirPos dirNeg = some r →
        ∀ row ∈ r.rows,
          row.repeats = min 200 (max 1 ⌊(row.absRem - row.safety) / row.step⌋) ∧
          1 ≤ row.repeats ∧ row.repeats ≤ 200) := by
  have hpt : ∀ absRem safety step : ℚ,
      batchRepeats absRem safety step
        = min 200 (max 1 ⌊(absRem - safety) / step⌋) ∧
      1 ≤ batchRepeats absRem safety step ∧
      batchRepeats absRem safety step ≤ 200 := by
    intro a s st
    simp only [batchRepeats, MAX_REPEATS_PER_BATCH]
    generalize ⌊(a - s) / st⌋ = n
    refine ⟨?_, ?_, ?_⟩ <;> omega
  refine ⟨hpt, ?_⟩
  intro read target calibration relPct absTol maxSteps smt dirPos dirNeg r hr
  rw [moveTo2] at hr
  split at hr
  · cases hr
  · have hrows := moveToLoop_rows read dirPos dirNeg target
      (effectiveFinalTolerance target relPct absTol)
      (toMapByStep2 calibration) smt maxSteps 1 1 (read 0) 0 [] r hr (by simp)
    intro row hrow
    rw [hrows row hrow]
    exact hpt _ _ _

/-- The single diagnostic row of the concrete `moveTo2` run used to witness
C10: batch 1 moves from 0 toward 10 with 9 repeats of the unit step. -/
def C10sampleRow : Row2 :=
  ⟨1, "DPAD_RIGHT", 1, 9, JsNum.fin 10, "-", 0, 10, 10, 0, 10, 1 / 2⟩

/-- C10 witness: a concrete run whose single batch takes
`min(200, max(1, floor((10 - 1/2) / 1))) = 9` repeats. -/
theorem C10_witness :
    C10sampleRow.repeats
      = min 200 (max 1 ⌊(C10sampleRow.absRem - C10sampleRow.safety) / C10sampleRow.step⌋) ∧
    1 ≤ C10sampleRow.repeats ∧ C10sampleRow.repeats ≤ 200 := by
  have heq : moveTo2 (fun k => if k = 0 then 0 else 10) 10
      [⟨JsNum.fin 1, JsNum.fin 10, none⟩] 0 (1 / 1000) 5 50
      "DPAD_RIGHT" "DPAD_LEFT"
      = some ⟨true, "within_tolerance", 1, 10, 0, [C10sampleRow]⟩ := by
    norm_num [moveTo2, moveToLoop, toMapByStep2, collectByStep, sortByDesc,
      insertByDesc, effectiveFinalTolerance, chooseStep, batchRepeats,
      MAX_REPEATS_PER_BATCH, List.find?, Option.orElse, C10sampleRow]
  exact C10_batch_repeats.2 (fun k => if k = 0 then 0 else 10) 10
    [⟨JsNum.fin 1, JsNum.fin 10, none⟩] 0 (1 / 1000) 5 50
    "DPAD_RIGHT" "DPAD_LEFT" _ heq C10sampleRow (by simp)

/-! ### Non-overshoot of the greedy aggregators -/

/-- The total axis change a pick list plans: `Σ step * repeats`. -/
def pickSum (l : List Pick) : ℚ := (l.map (fun p => p.step * (p.repeats : ℚ))).sum

theorem pickSum_nil : pickSum [] = 0 := rfl

theorem pickSum_append (l1 l2 : List Pick) :
    pickSum (l1 ++ l2) = pickSum l1 + pickSum l2 := by
  simp [pickSum]

/-- The greedy consumption loop never drives `covered` past `cap`
(for positive steps). -/
theorem consumePlan_covered_le (cap : ℚ) :
    ∀ (plan : List PlanEntry) (covered : ℚ) (picks : List Pick),
      (∀ p ∈ plan, 0 < p.step) → covered ≤ cap →
      (consumePlan cap plan covered picks).1 ≤ cap := by
  intro plan
  induction plan with
  | nil =>
      intro covered picks _ h
      simpa [consumePlan] using h
  | cons p rest ih =>
      intro covered picks hpos h
      simp only [consumePlan]
      by_cases h1 : cap ≤ covered
      · rw [if_pos h1]
        exact h
      · rw [if_neg h1]
        by_cases h2 : (⌊(cap - covered) / p.step⌋ : ℤ) ≤ 0
        · rw [if_pos h2]
          exact ih covered picks (fun q hq => hpos q (List.mem_cons_of_mem _ hq)) h
        · rw [if_neg h2]
          apply ih _ _ (fun q hq => hpos q (List.mem_cons_of_mem _ hq))
          have hstep := hpos p (List.mem_cons_self _ _)
          have hmr : (⌊(cap - covered) / p.step⌋ : ℚ) ≤ (cap - covered) / p.step :=
            Int.floor_le _
          have hmul := mul_le_mul_of_nonneg_right hmr (le_of_lt hstep)
          rw [div_mul_cancel₀ _ (ne_of_gt hstep)] at hmul
          linarith

/-- The greedy consumption loop keeps `pickSum picks` and `covered` in sync. -/
theorem consumePlan_pickSum (cap : ℚ) :
    ∀ (plan : List PlanEntry) (covered : ℚ) (picks : List Pick),
      pickSum (consumePlan cap plan covered picks).2
        = pickSum picks + ((consumePlan cap plan covered picks).1 - covered) := by
  intro plan
  induction plan with
  | nil =>
      intro covered picks
      simp [consumePlan]
  | cons p rest ih =>
      intro covered picks
      simp only [consumePlan]
      by_cases h1 : cap ≤ covered
      · rw [if_pos h1]
        ring
      · rw [if_neg h1]
        by_cases h2 : (⌊(cap - covered) / p.step⌋ : ℤ) ≤ 0
        · rw [if_pos h2]
          exact ih covered picks
        · rw [if_neg h2]
          rw [ih]
          rw [pickSum_append]
          simp [pickSum]
          ring

/-- A non-positive cap yields no picks. -/
theorem consumePlan_zero_cap (cap : ℚ) (plan : List PlanEntry) (hcap : cap ≤ 0) :
    consumePlan cap plan 0 [] = (0, []) := by
  cases plan with
  | nil => rfl
  | cons p rest =>
      simp only [consumePlan]
      rw [if_pos hcap]

theorem pickSum_cons (p : Pick) (l : List Pick) :
    pickSum (p :: l) = p.step * (p.repeats : ℚ) + pickSum l := by
  simp [pickSum]

/-- Grouping picks into per-held-key segments preserves the planned total. -/
theorem groupPicks_pickSum :
    ∀ l : List Pick, ((groupPicks l).map (fun s => pickSum s.detail)).sum = pickSum l := by
  intro l
  induction l with
  | nil => simp [groupPicks, pickSum]
  | cons p ps ih =>
      rw [groupPicks]
      cases hg : groupPicks ps with
      | nil =>
          rw [hg] at ih
          simp only [List.map_nil, List.sum_nil] at ih
          dsimp only
          simp only [pickSum, List.map_cons, List.map_nil, List.sum_cons, List.sum_nil] at *
          linarith
      | cons s ss =>
          rw [hg] at ih
          dsimp only
          by_cases hkey : s.heldKey = p.heldKey
          · rw [if_pos hkey]
            simp only [pickSum, List.map_cons, List.sum_cons] at *
            linarith
          · rw [if_neg hkey]
            simp only [pickSum, List.map_cons, List.map_nil, List.sum_cons,
              List.sum_nil] at *
            linarith

/-- The summary pass does not change segment details. -/
theorem finalize_pickSum (l : List Segment) :
    ((l.map finalizeSegment).map (fun s => pickSum s.detail)).sum
      = (l.map (fun s => pickSum s.detail)).sum := by
  rw [List.map_map]
  rfl

/-- C1 (amended): the aggregators that subtract the tolerance
(`aggregateAllHeldKeys`, `conservativeAggregateForHeldKey`) never plan past
`absRem - tol`: any produced plan satisfies
`Σ step*repeats = covered ≤ absRem - tol`; `aggregateGreedy` without exact
top-off never exceeds its `cap` argument, but the exact top-off may
overshoot `cap` (see the counterexample). -/
theorem C1_planner_non_overshoot :
    (∀ (absRem tol : ℚ) (plan : List PlanEntry),
        (∀ p ∈ plan, 0 < p.step) →
        ∀ r, aggregateAllHeldKeys absRem plan tol = some r →
          pickSum r.picks = r.covered ∧
          ((r.segments.map (fun s => pickSum s.detail)).sum = r.covered) ∧
          r.covered ≤ absRem - tol) ∧
    (∀ (absRem tol : ℚ) (hk : String) (plan : List PlanEntry),
        (∀ p ∈ plan, 0 < p.step) →
        ∀ r, conservativeAggregateForHeldKey absRem plan hk tol = some r →
          pickSum r.picks = r.covered ∧ r.covered ≤ absRem - tol) ∧
    (∀ (cap : ℚ) (subPlan : List PlanEntry),
        (∀ p ∈ subPlan, 0 < p.step) →
        pickSum (aggregateGreedy cap subPlan false).picks
            = (aggregateGreedy cap subPlan false).covered ∧
        (aggregateGreedy cap subPlan false).covered ≤ max cap 0) := by
  refine ⟨?_, ?_, ?_⟩
  · intro absRem tol plan hpos r hr
    simp only [aggregateAllHeldKeys] at hr
    by_cases hcap : max 0 (absRem - tol) ≤ 0
    · rw [if_pos hcap] at hr
      cases hr
    · rw [if_neg hcap] at hr
      have hcap0 : 0 ≤ max 0 (absRem - tol) := le_max_left _ _
      have hcappos : 0 < max 0 (absRem - tol) := lt_of_not_le hcap
      have hsub : 0 < absRem - tol := by
        by_contra hx
        push_neg at hx
        rw [max_eq_left hx] at hcappos
        exact lt_irrefl 0 hcappos
      have hcapeq : max 0 (absRem - tol) = absRem - tol := max_eq_right (le_of_lt hsub)
      set wholeF := plan.filter (fun p => decide (1 ≤ p.step)) with hwf
      set fracF := plan.filter (fun p => decide (p.step < 1)) with hff
      set cap := max 0 (absRem - tol) with hcd
      have hposw : ∀ p ∈ wholeF, 0 < p.step :=
        fun p hp => hpos p (List.mem_of_mem_filter hp)
      have hposf : ∀ p ∈ fracF, 0 < p.step :=
        fun p hp => hpos p (List.mem_of_mem_filter hp)
      split at hr
      · cases hr
      · cases hr
        have hc1 := consumePlan_covered_le cap wholeF 0 [] hposw hcap0
        have hc2 := consumePlan_covered_le cap fracF
          (consumePlan cap wholeF 0 []).1 (consumePlan cap wholeF 0 []).2 hposf hc1
        have hs1 := consumePlan_pickSum cap wholeF 0 []
        have hs2 := consumePlan_pickSum cap fracF
          (consumePlan cap wholeF 0 []).1 (consumePlan cap wholeF 0 []).2
        rw [pickSum_nil] at hs1
        refine ⟨?_, ?_, ?_⟩
        · dsimp only
          rw [hs2, hs1]
          ring
        · dsimp only
          rw [finalize_pickSum, groupPicks_pickSum, hs2, hs1]
          ring
        · dsimp only
          rw [← hcapeq]
          exact hc2
  · intro absRem tol hk plan hpos r hr
    simp only [conservativeAggregateForHeldKey] at hr
    split at hr
    · cases hr
    · set sameF := plan.filter (fun p => decide (p.heldKey = hk)) with hsf
      set cap := max 0 (absRem - tol) with hcd
      have hcap0 : (0 : ℚ) ≤ cap := le_max_left _ _
      have hposk : ∀ p ∈ sameF, 0 < p.step :=
        fun p hp => hpos p (List.mem_of_mem_filter hp)
      by_cases hz : cap ≤ 0
      · rw [consumePlan_zero_cap cap sameF hz] at hr
        simp at hr
      · have hsub : 0 < absRem - tol := by
          by_contra hx
          push_neg at hx
          rw [hcd, max_eq_left hx] at hz
          exact hz le_rfl
        have hcapeq : cap = absRem - tol := max_eq_right (le_of_lt hsub)
        split at hr
        · cases hr
        · cases hr
          have hc := consumePlan_covered_le cap sameF 0 [] hposk hcap0
          have hs := consumePlan_pickSum cap sameF 0 []
          rw [pickSum_nil] at hs
          constructor
          · dsimp only
            rw [hs]
            ring
          · dsimp only
            rw [← hcapeq]
            exact hc
  · intro cap subPlan hpos
    simp only [aggregateGreedy]
    by_cases h0 : cap ≤ 0 ∨ subPlan = []
    · rw [if_pos h0]
      exact ⟨rfl, le_max_right _ _⟩
    · rw [if_neg h0]
      have hcappos : 0 < cap := by
        rcases not_or.mp h0 with ⟨h1, _⟩
        exact lt_of_not_le h1
      have hc := consumePlan_covered_le cap subPlan 0 [] hpos (le_of_lt hcappos)
      have hs := consumePlan_pickSum cap subPlan 0 []
      rw [pickSum_nil] at hs
      have hcond : ¬((false : Bool) = true ∧ (consumePlan cap subPlan 0 []).1 < cap) := by
        simp
      rw [if_neg hcond]
      constructor
      · dsimp only
        rw [hs]
        ring
      · dsimp only
        exact le_trans hc (le_max_left _ _)

/-- C1: the claim fails on `aggregateGreedy` with exact top-off: on the
single-entry table `step = 3` and `cap = 3 - 3e-13` (with `tol = 0`), the
near-integer ratio makes the top-off fire and the plan covers `3`,
overshooting past `cap - tol`. -/
theorem C1_counterexample :
    pickSum (aggregateGreedy (3 - 3 / 10 ^ 13) [⟨3, 10, "-"⟩] true).picks = 3 ∧
    (aggregateGreedy (3 - 3 / 10 ^ 13) [⟨3, 10, "-"⟩] true).covered = 3 ∧
    ¬((aggregateGreedy (3 - 3 / 10 ^ 13) [⟨3, 10, "-"⟩] true).covered
        ≤ (3 - 3 / 10 ^ 13) - 0) := by
  have habs1 : |(1 : ℚ) / 10000000000000| < 1 / 1000000000000 := by
    rw [abs_of_pos (by norm_num : (0 : ℚ) < 1 / 10000000000000)]
    norm_num
  have habs2 : |(3 : ℚ) / 10000000000000| < 1 / 1000000000000 := by
    rw [abs_of_pos (by norm_num : (0 : ℚ) < 3 / 10000000000000)]
    norm_num
  have heval : aggregateGreedy (3 - 3 / 10 ^ 13) [⟨3, 10, "-"⟩] true
      = ⟨[⟨"-", 3, 1, 10⟩],
         [⟨"-", [⟨"-", 3, 1, 10⟩], 10, 1, [3]⟩], 3, true⟩ := by
    norm_num [aggregateGreedy, consumePlan, EPS12, jsRound, List.find?, groupPicks,
      finalizeSegment, pickMs, decide_eq_true habs1, decide_eq_true habs2, max_def]
  rw [heval]
  norm_num [pickSum]

/-- C1 witness: the non-overshoot bound on a concrete produced plan
(`absRem = 10`, `tol = 1`, one step of size 2 → covered `8 ≤ 9`). -/
theorem C1_witness :
    pickSum [Pick.mk "-" 2 4 5] = (8 : ℚ) ∧
    (([Segment.mk "-" [Pick.mk "-" 2 4 5] 20 4 [2]]).map
        (fun s => pickSum s.detail)).sum = (8 : ℚ) ∧
    (8 : ℚ) ≤ 10 - 1 := by
  have heval : aggregateAllHeldKeys 10 [⟨2, 5, "-"⟩] 1
      = some ⟨[⟨"-", 2, 4, 5⟩], [⟨"-", [⟨"-", 2, 4, 5⟩], 20, 4, [2]⟩], 8⟩ := by
    norm_num [aggregateAllHeldKeys, consumePlan, List.filter, groupPicks,
      finalizeSegment, pickMs, jsRound, max_def]
  exact C1_planner_non_overshoot.1 10 1 [⟨2, 5, "-"⟩] (by norm_num) _ heval

/-- C5 (amended): when the exact top-off fires with a positive rounded repeat
count on entry `p`, the topped-off plan is the greedy plan plus
`round(residual / p.step)` repeats of `p`, and the final `covered` misses
`cap` by less than `1e-12 * p.step` — within the code's own `1e-12` exactness
threshold only when `p.step ≤ 1`; a zero rounded count adds nothing. -/
theorem C5_exact_topoff :
    ∀ (cap : ℚ) (subPlan : List PlanEntry) (p : PlanEntry),
      (∀ q ∈ subPlan, 0 < q.step) →
      ¬(cap ≤ 0 ∨ subPlan = []) →
      (consumePlan cap subPlan 0 []).1 < cap →
      subPlan.find? (fun q =>
          decide (|(cap - (consumePlan cap subPlan 0 []).1) / q.step
            - (jsRound ((cap - (consumePlan cap subPlan 0 []).1) / q.step) : ℚ)| < EPS12))
        = some p →
      0 < jsRound ((cap - (consumePlan cap subPlan 0 []).1) / p.step) →
      (aggregateGreedy cap subPlan true).picks
        = (consumePlan cap subPlan 0 []).2 ++
            [⟨p.heldKey, p.step,
              jsRound ((cap - (consumePlan cap subPlan 0 []).1) / p.step), p.ms⟩] ∧
      |(aggregateGreedy cap subPlan true).covered - cap| < EPS12 * p.step := by
  intro cap subPlan p hpos h0 hlt hfind hrep
  simp only [aggregateGreedy]
  rw [if_neg h0]
  have hcond : True ∧ (consumePlan cap subPlan 0 []).1 < cap :=
    ⟨trivial, hlt⟩
  rw [if_pos hcond, hfind]
  dsimp only
  rw [if_pos hrep]
  refine ⟨rfl, ?_⟩
  have hstep : 0 < p.step := hpos p (List.mem_of_find?_eq_some hfind)
  have hne : p.step ≠ 0 := ne_of_gt hstep
  have hpred := List.find?_some hfind
  rw [decide_eq_true_eq] at hpred
  dsimp only
  have hjs : (cap - (consumePlan cap subPlan 0 []).1) / p.step * p.step
      = cap - (consumePlan cap subPlan 0 []).1 := div_mul_cancel₀ _ hne
  have key : (consumePlan cap subPlan 0 []).1 +
        (jsRound ((cap - (consumePlan cap subPlan 0 []).1) / p.step) : ℚ) * p.step - cap
      = ((jsRound ((cap - (consumePlan cap subPlan 0 []).1) / p.step) : ℚ)
          - (cap - (consumePlan cap subPlan 0 []).1) / p.step) * p.step := by
    linear_combination hjs
  rw [key, abs_mul, abs_of_pos hstep, abs_sub_comm]
  exact mul_lt_mul_of_pos_right hpred hstep

/-- C5: the claim fails as stated: with the single-entry table `step = 3` and
`cap = 3 - 2.7e-12`, the residual is positive and the entry divides it within
the `1e-12` ratio epsilon, the top-off fires (one repeat), yet the plan misses
`cap` by `2.7e-12`, outside the code's own `1e-12` exactness threshold
(`exactHit = false`). -/
theorem C5_counterexample :
    0 < (3 - 27 / 10 ^ 13 : ℚ)
        - (consumePlan (3 - 27 / 10 ^ 13) [⟨3, 10, "-"⟩] 0 []).1 ∧
    ([⟨3, 10, "-"⟩] : List PlanEntry).find? (fun q =>
        decide (|((3 - 27 / 10 ^ 13 : ℚ)
            - (consumePlan (3 - 27 / 10 ^ 13) [⟨3, 10, "-"⟩] 0 []).1) / q.step
          - (jsRound (((3 - 27 / 10 ^ 13 : ℚ)
            - (consumePlan (3 - 27 / 10 ^ 13) [⟨3, 10, "-"⟩] 0 []).1) / q.step) : ℚ)|
          < EPS12))
      = some ⟨3, 10, "-"⟩ ∧
    (aggregateGreedy (3 - 27 / 10 ^ 13) [⟨3, 10, "-"⟩] true).covered = 3 ∧
    (aggregateGreedy (3 - 27 / 10 ^ 13) [⟨3, 10, "-"⟩] true).exactHit = false ∧
    ¬(|(aggregateGreedy (3 - 27 / 10 ^ 13) [⟨3, 10, "-"⟩] true).covered
        - (3 - 27 / 10 ^ 13)| < EPS12) := by
  have hcons : consumePlan ((3 : ℚ) - 27 / 10 ^ 13) [⟨3, 10, "-"⟩] 0 [] = (0, []) := by
    norm_num [consumePlan]
  have habsA : |(9 : ℚ) / 10000000000000| < 1 / 1000000000000 := by
    rw [abs_of_pos (by norm_num : (0 : ℚ) < 9 / 10000000000000)]
    norm_num
  have habsB : ¬(|(27 : ℚ) / 10000000000000| < 1 / 1000000000000) := by
    rw [abs_of_pos (by norm_num : (0 : ℚ) < 27 / 10000000000000)]
    norm_num
  have heval : aggregateGreedy (3 - 27 / 10 ^ 13) [⟨3, 10, "-"⟩] true
      = ⟨[⟨"-", 3, 1, 10⟩],
         [⟨"-", [⟨"-", 3, 1, 10⟩], 10, 1, [3]⟩], 3, false⟩ := by
    norm_num [aggregateGreedy, consumePlan, EPS12, jsRound, List.find?, groupPicks,
      finalizeSegment, pickMs, decide_eq_true habsA, decide_eq_false habsB, max_def]
  refine ⟨?_, ?_, ?_, ?_, ?_⟩
  · rw [hcons]
    norm_num
  · rw [hcons]
    norm_num [List.find?, EPS12, jsRound, decide_eq_true habsA]
  · rw [heval]
  · rw [heval]
  · rw [heval]
    dsimp only
    have h3 : (3 : ℚ) - (3 - 27 / 10 ^ 13) = 27 / 10 ^ 13 := by ring
    rw [h3, EPS12]
    rw [abs_of_pos (by norm_num : (0 : ℚ) < 27 / 10 ^ 13)]
    norm_num

/-- C5 witness: the amended top-off bound on a concrete near-miss input
(`cap = 3 - 3e-13`): one repeat of the step-3 entry is added and the plan
misses `cap` by `3e-13 < 1e-12 * 3`. -/
theorem C5_witness :
    (aggregateGreedy (3 - 3 / 10 ^ 13) [⟨3, 10, "-"⟩] true).picks
      = (consumePlan (3 - 3 / 10 ^ 13) [⟨3, 10, "-"⟩] 0 []).2 ++
          [⟨"-", 3, jsRound (((3 - 3 / 10 ^ 13 : ℚ)
            - (consumePlan (3 - 3 / 10 ^ 13) [⟨3, 10, "-"⟩] 0 []).1) / 3), 10⟩] ∧
    |(aggregateGreedy (3 - 3 / 10 ^ 13) [⟨3, 10, "-"⟩] true).covered
        - (3 - 3 / 10 ^ 13)| < EPS12 * 3 := by
  have hcons : consumePlan ((3 : ℚ) - 3 / 10 ^ 13) [⟨3, 10, "-"⟩] 0 [] = (0, []) := by
    norm_num [consumePlan]
  have habs1 : |(1 : ℚ) / 10000000000000| < 1 / 1000000000000 := by
    rw [abs_of_pos (by norm_num : (0 : ℚ) < 1 / 10000000000000)]
    norm_num
  exact C5_exact_topoff (3 - 3 / 10 ^ 13) [⟨3, 10, "-"⟩] ⟨3, 10, "-"⟩
    (by intro q hq; rw [List.mem_singleton] at hq; subst hq; norm_num)
    (by rintro (h | h)
        · norm_num at h
        · simp at h)
    (by rw [hcons]; norm_num)
    (by rw [hcons]; norm_num [List.find?, EPS12, jsRound, decide_eq_true habs1])
    (by rw [hcons]; norm_num [jsRound])

/-! ### Best-probe tracking of the bisection tuner -/

theorem tuneLoop_foldl (delta : ℕ → ℚ) (target tol : ℚ) :
    ∀ (fuel i low high ms : ℕ) (best : Option Probe),
      tuneLoop delta target tol fuel i low high ms best
        = (tuneProbes delta target tol fuel i low high ms).foldl
            (fun b p => updBest b p.ms p.err) best := by
  intro fuel
  induction fuel with
  | zero =>
      intro i low high ms best
      rfl
  | succ fuel ih =>
      intro i low high ms best
      simp only [tuneLoop, tuneProbes]
      by_cases h1 : |delta i - target| ≤ tol
      · rw [if_pos h1, if_pos h1]
        rfl
      · rw [if_neg h1, if_neg h1]
        by_cases h2 : midMs (if target < delta i then low else ms)
            (if target < delta i then ms else high) = ms
        · rw [if_pos h2, if_pos h2]
          rfl
        · rw [if_neg h2, if_neg h2]
          rw [ih]
          rfl

theorem foldl_updBest_some :
    ∀ (l : List Probe) (b0 : Probe),
      ∃ b, l.foldl (fun b p => updBest b p.ms p.err) (some b0) = some b ∧
        b ∈ b0 :: l ∧ ∀ p ∈ b0 :: l, b.err ≤ p.err := by
  intro l
  induction l with
  | nil =>
      intro b0
      refine ⟨b0, rfl, List.mem_cons_self _ _, ?_⟩
      intro p hp
      rcases List.mem_cons.mp hp with rfl | hp
      · exact le_refl _
      · cases hp
  | cons q qs ih =>
      intro b0
      simp only [List.foldl_cons]
      by_cases hq : q.err < b0.err
      · rw [show updBest (some b0) q.ms q.err = some q by simp [updBest, if_pos hq]]
        obtain ⟨b, hb, hmem, hmin⟩ := ih q
        refine ⟨b, hb, ?_, ?_⟩
        · rcases List.mem_cons.mp hmem with rfl | hm
          · exact List.mem_cons_of_mem _ (List.mem_cons_self _ _)
          · exact List.mem_cons_of_mem _ (List.mem_cons_of_mem _ hm)
        · intro p hp
          rcases List.mem_cons.mp hp with rfl | hp
          · exact le_trans (hmin q (List.mem_cons_self _ _)) (le_of_lt hq)
          · exact hmin p hp
      · rw [show updBest (some b0) q.ms q.err = some b0 by simp [updBest, if_neg hq]]
        obtain ⟨b, hb, hmem, hmin⟩ := ih b0
        refine ⟨b, hb, ?_, ?_⟩
        · rcases List.mem_cons.mp hmem with rfl | hm
          · exact List.mem_cons_self _ _
          · exact List.mem_cons_of_mem _ (List.mem_cons_of_mem _ hm)
        · intro p hp
          rcases List.mem_cons.mp hp with rfl | hp
          · exact hmin _ (List.mem_cons_self _ _)
          · rcases List.mem_cons.mp hp with rfl | hp2
            · exact le_trans (hmin _ (List.mem_cons_self _ _)) (not_lt.mp hq)
            · exact hmin p (List.mem_cons_of_mem _ hp2)

theorem foldl_updBest_none (l : List Probe) (hne : l ≠ []) :
    ∃ b, l.foldl (fun b p => updBest b p.ms p.err) none = some b ∧
      b ∈ l ∧ ∀ p ∈ l, b.err ≤ p.err := by
  cases l with
  | nil => exact absurd rfl hne
  | cons q qs =>
      simp only [List.foldl_cons]
      rw [show updBest none q.ms q.err = some q from rfl]
      exact foldl_updBest_some qs q

theorem tuneProbes_ne_nil (delta : ℕ → ℚ) (target tol : ℚ)
    (fuel i low high ms : ℕ) :
    tuneProbes delta target tol (fuel + 1) i low high ms ≠ [] := by
  simp only [tuneProbes]
  by_cases h1 : |delta i - target| ≤ tol
  · rw [if_pos h1]
    simp
  · rw [if_neg h1]
    by_cases h2 : midMs (if target < delta i then low else ms)
        (if target < delta i then ms else high) = ms
    · rw [if_pos h2]
      simp
    · rw [if_neg h2]
      simp

/-- C3: the tuner probes the rounded midpoint of a `[low, high]` bracket;
when a probe's error exceeds the effective tolerance it sets `high = ms` if
the measured delta overshot the step and `low = ms` otherwise and re-probes
at the new midpoint; it stops early within tolerance, stops when the
midpoint stops moving, and on every exit — including budget exhaustion —
returns the probe with the minimum error among all probes performed
(position and rotation tuners alike). -/
theorem C3_tuner :
    (∀ (delta : ℕ → ℚ) (target tol : ℚ) (fuel i low high ms : ℕ)
        (best : Option Probe),
        |delta i - target| ≤ tol →
        tuneLoop delta target tol (fuel + 1) i low high ms best
          = updBest best ms |delta i - target|) ∧
    (∀ (delta : ℕ → ℚ) (target tol : ℚ) (fuel i low high ms : ℕ)
        (best : Option Probe),
        tol < |delta i - target| → target < delta i → midMs low ms ≠ ms →
        tuneLoop delta target tol (fuel + 1) i low high ms best
          = tuneLoop delta target tol fuel (i + 1) low ms (midMs low ms)
              (updBest best ms |delta i - target|)) ∧
    (∀ (delta : ℕ → ℚ) (target tol : ℚ) (fuel i low high ms : ℕ)
        (best : Option Probe),
        tol < |delta i - target| → delta i ≤ target → midMs ms high ≠ ms →
        tuneLoop delta target tol (fuel + 1) i low high ms best
          = tuneLoop delta target tol fuel (i + 1) ms high (midMs ms high)
              (updBest best ms |delta i - target|)) ∧
    (∀ (delta : ℕ → ℚ) (target tol : ℚ) (fuel i low high ms : ℕ)
        (best : Option Probe),
        tol < |delta i - target| →
        midMs (if target < delta i then low else ms)
            (if target < delta i then ms else high) = ms →
        tuneLoop delta target tol (fuel + 1) i low high ms best
          = updBest best ms |delta i - target|) ∧
    (∀ (read : ℕ → ℚ) (target : ℚ),
        ∃ b, tuneForTarget read target = some b ∧
          b ∈ tuneForTargetProbes read target ∧
          ∀ p ∈ tuneForTargetProbes read target, b.err ≤ p.err) ∧
    (∀ (read : ℕ → ℚ) (targetSigned : ℚ),
        ∃ b, tuneForTargetRotation read targetSigned = some b ∧
          b ∈ tuneForTargetRotationProbes read targetSigned ∧
          ∀ p ∈ tuneForTargetRotationProbes read targetSigned, b.err ≤ p.err) := by
  refine ⟨?_, ?_, ?_, ?_, ?_, ?_⟩
  · intro delta target tol fuel i low high ms best h1
    simp only [tuneLoop]
    rw [if_pos h1]
  · intro delta target tol fuel i low high ms best h1 h2 h3
    simp only [tuneLoop]
    rw [if_neg (not_le.mpr h1)]
    simp only [if_pos h2]
    rw [if_neg h3]
  · intro delta target tol fuel i low high ms best h1 h2 h3
    simp only [tuneLoop]
    rw [if_neg (not_le.mpr h1)]
    simp only [if_neg (not_lt.mpr h2)]
    rw [if_neg h3]
  · intro delta target tol fuel i low high ms best h1 hmid
    simp only [tuneLoop]
    rw [if_neg (not_le.mpr h1), if_pos hmid]
  · intro read target
    have hfold := tuneLoop_foldl (fun i => read (2 * i + 1) - read (2 * i)) target
      (effectiveTolerance target).eff MAX_SUB_ITERS 0 MIN_MS MAX_MS
      (midMs MIN_MS MAX_MS) none
    have hne : tuneProbes (fun i => read (2 * i + 1) - read (2 * i)) target
        (effectiveTolerance target).eff MAX_SUB_ITERS 0 MIN_MS MAX_MS
        (midMs MIN_MS MAX_MS) ≠ [] :=
      tuneProbes_ne_nil (fun i => read (2 * i + 1) - read (2 * i)) target
        (effectiveTolerance target).eff 29 0 MIN_MS MAX_MS (midMs MIN_MS MAX_MS)
    obtain ⟨b, hb, hmem, hmin⟩ := foldl_updBest_none _ hne
    refine ⟨b, ?_, hmem, hmin⟩
    rw [tuneForTarget, hfold]
    exact hb
  · intro read targetSigned
    have hfold := tuneLoop_foldl
      (fun i => forwardDelta360 (read (2 * i)) (read (2 * i + 1)))
      (to360cal targetSigned) (effectiveTolerance (to360cal targetSigned)).eff
      MAX_SUB_ITERS 0 MIN_MS MAX_MS (midMs MIN_MS MAX_MS) none
    have hne : tuneProbes
        (fun i => forwardDelta360 (read (2 * i)) (read (2 * i + 1)))
        (to360cal targetSigned) (effectiveTolerance (to360cal targetSigned)).eff
        MAX_SUB_ITERS 0 MIN_MS MAX_MS (midMs MIN_MS MAX_MS) ≠ [] :=
      tuneProbes_ne_nil _ _ _ 29 0 MIN_MS MAX_MS (midMs MIN_MS MAX_MS)
    obtain ⟨b, hb, hmem, hmin⟩ := foldl_updBest_none _ hne
    refine ⟨b, ?_, hmem, hmin⟩
    rw [tuneForTargetRotation, hfold]
    exact hb

/-- C3 witness: the early-stop equation at a probe already within tolerance,
and the existence of a minimum-error best probe of a constant-sensor run. -/
theorem C3_witness :
    (|(fun _ : ℕ => (2 : ℚ)) 0 - 2| ≤ 1 ∧
      tuneLoop (fun _ : ℕ => (2 : ℚ)) 2 1 1 0 0 1000 500 none
        = updBest none 500 |(fun _ : ℕ => (2 : ℚ)) 0 - 2|) ∧
    (tuneForTarget (fun _ => 0) 100).isSome = true :=
  ⟨⟨by norm_num, C3_tuner.1 (fun _ : ℕ => (2 : ℚ)) 2 1 0 0 0 1000 500 none
      (by norm_num)⟩,
   by
    obtain ⟨b, hb, _, _⟩ := C3_tuner.2.2.2.2.1 (fun _ => 0) 100
    rw [hb]
    rfl⟩
